import Mathlib

/-!
Verification development for the artemis experiment-tracking framework.

The repository ships only the usage tutorial
(`src/artemis/examples/experiment_tutorial.ipynb`); the implementation of the
identity resolver, experiment registry, record store, execution engine and
selector resolver is not part of the sources available here.  Every
definition below is therefore modelled from the specification (`spec.md`),
faithful to its words, and the theorems settle the testable properties
against that model.
-/

namespace Artemis

/-- A parameter name, e.g. `homing_instinct`. -/
abbrev Param := String

/-- A parameter value, rendered as a string in ids, e.g. `0.01`. -/
abbrev Value := String

/-- An argument-override mapping: an ordered list of parameter/value pairs. -/
abbrev Overrides := List (Param × Value)

/-- Modelled from the spec: the id suffix contributed by one override,
`.<param>=<value>` (spec section 3, ExperimentIdentity). -/
def overrideSuffix (pv : Param × Value) : String :=
  "." ++ pv.1 ++ "=" ++ pv.2

/-- Concatenation of a list of strings (left to right). -/
def catStrings : List String → String
  | [] => ""
  | s :: rest => s ++ catStrings rest

/-- Modelled from the spec: the suffix string contributed by one override
mapping, one `.<param>=<value>` per override, in order. -/
def suffixStr (o : Overrides) : String :=
  catStrings (o.map overrideSuffix)

/-- Modelled from the spec: `compute_id(lineage)` — the canonical id string is
the base name followed by, for each override on the path, `.<param>=<value>`
in the order overrides were applied; root experiments have no suffix
(spec section 4.1, Identity Resolver).  A lineage is the base name plus the
list of override mappings from the root down to the node. -/
def compute_id (base : String) (path : List Overrides) : String :=
  base ++ catStrings ((path.flatten).map overrideSuffix)

/-- An override mapping is well formed when each parameter name avoids both
separator characters of the id grammar and each value avoids the `=`
separator (values such as `0.01` may contain dots). -/
def wfOverrides (o : Overrides) : Prop :=
  ∀ pv ∈ o, (('.' : Char) ∉ (pv.1 : String).data ∧ ('=' : Char) ∉ (pv.1 : String).data) ∧
    ('=' : Char) ∉ (pv.2 : String).data

/-- Character-level rendering of an override mapping's id suffix. -/
def suffixData : Overrides → List Char
  | [] => []
  | (n, v) :: rest => '.' :: (n.data ++ '=' :: (v.data ++ suffixData rest))

theorem suffixStr_data (o : Overrides) : (suffixStr o).data = suffixData o := by
  induction o with
  | nil => rfl
  | cons pv rest ih =>
    obtain ⟨n, v⟩ := pv
    simp only [suffixStr, List.map_cons, catStrings, suffixData, overrideSuffix,
      String.data_append] at *
    simp [ih]

/-- Splitting a concatenation at the first occurrence of a separator that is
absent from both left parts. -/
theorem split_first_sep {sep : Char} :
    ∀ (xs ys t1 t2 : List Char), sep ∉ xs → sep ∉ ys →
      xs ++ sep :: t1 = ys ++ sep :: t2 → xs = ys ∧ t1 = t2 := by
  intro xs
  induction xs with
  | nil =>
    intro ys t1 t2 _ hys h
    cases ys with
    | nil => simpa using h
    | cons y ys =>
      simp only [List.nil_append, List.cons_append, List.cons.injEq] at h
      exact absurd (h.1 ▸ List.mem_cons_self y ys) hys
  | cons x xs ih =>
    intro ys t1 t2 hxs hys h
    cases ys with
    | nil =>
      simp only [List.cons_append, List.nil_append, List.cons.injEq] at h
      exact absurd (h.1 ▸ List.mem_cons_self x xs) hxs
    | cons y ys =>
      simp only [List.cons_append, List.cons.injEq] at h
      have hx : sep ∉ xs := fun hm => hxs (List.mem_cons_of_mem _ hm)
      have hy : sep ∉ ys := fun hm => hys (List.mem_cons_of_mem _ hm)
      obtain ⟨h1, h2⟩ := ih ys t1 t2 hx hy h.2
      exact ⟨by rw [h.1, h1], h2⟩

/-- Splitting a concatenation at the last occurrence of a separator that is
absent from both right parts. -/
theorem split_last_sep {sep : Char} (xs ys t1 t2 : List Char)
    (h1 : sep ∉ t1) (h2 : sep ∉ t2)
    (h : xs ++ sep :: t1 = ys ++ sep :: t2) : xs = ys ∧ t1 = t2 := by
  have hrev : t1.reverse ++ sep :: xs.reverse = t2.reverse ++ sep :: ys.reverse := by
    have := congrArg List.reverse h
    simpa [List.reverse_append] using this
  have h1r : sep ∉ t1.reverse := by simpa using h1
  have h2r : sep ∉ t2.reverse := by simpa using h2
  obtain ⟨ha, hb⟩ := split_first_sep _ _ _ _ h1r h2r hrev
  constructor
  · have := congrArg List.reverse hb
    simpa using this
  · have := congrArg List.reverse ha
    simpa using this

theorem eq_mem_suffixData_of_ne_nil {o : Overrides} (ho : o ≠ []) :
    ('=' : Char) ∈ suffixData o := by
  cases o with
  | nil => exact absurd rfl ho
  | cons pv rest =>
    obtain ⟨n, v⟩ := pv
    simp [suffixData, List.mem_append, List.mem_cons]

/-- Core injectivity: on well-formed override mappings, the character-level
suffix rendering is injective. -/
theorem suffixData_injective :
    ∀ (a b : Overrides), wfOverrides a → wfOverrides b →
      suffixData a = suffixData b → a = b := by
  intro a
  induction a with
  | nil =>
    intro b _ hb h
    cases b with
    | nil => rfl
    | cons pv rest =>
      obtain ⟨n, v⟩ := pv
      simp [suffixData] at h
  | cons pv rest ih =>
    intro b ha hb h
    obtain ⟨n, v⟩ := pv
    cases b with
    | nil => simp [suffixData] at h
    | cons pv2 rest2 =>
      obtain ⟨n2, v2⟩ := pv2
      simp only [suffixData, List.cons.injEq, true_and] at h
      have han : ('.' : Char) ∉ n.data ∧ ('=' : Char) ∉ n.data :=
        (ha (n, v) (List.mem_cons_self _ _)).1
      have hav : ('=' : Char) ∉ v.data := (ha (n, v) (List.mem_cons_self _ _)).2
      have hbn : ('.' : Char) ∉ n2.data ∧ ('=' : Char) ∉ n2.data :=
        (hb (n2, v2) (List.mem_cons_self _ _)).1
      have hbv : ('=' : Char) ∉ v2.data := (hb (n2, v2) (List.mem_cons_self _ _)).2
      obtain ⟨hn, hrest⟩ := split_first_sep n.data n2.data _ _ han.2 hbn.2 h
      have hn' : n = n2 := String.ext hn
      have harest : wfOverrides rest := fun q hq => ha q (List.mem_cons_of_mem _ hq)
      have hbrest : wfOverrides rest2 := fun q hq => hb q (List.mem_cons_of_mem _ hq)
      -- Now v.data ++ suffixData rest = v2.data ++ suffixData rest2.
      cases hr : rest with
      | nil =>
        cases hr2 : rest2 with
        | nil =>
          subst hr; subst hr2
          simp only [suffixData, List.append_nil] at hrest
          have hv : v = v2 := String.ext hrest
          simp [hn', hv]
        | cons q2 qs2 =>
          subst hr; subst hr2
          simp only [suffixData, List.append_nil] at hrest
          have : ('=' : Char) ∈ v.data := by
            rw [hrest]
            exact List.mem_append_right _
              (eq_mem_suffixData_of_ne_nil (List.cons_ne_nil q2 qs2))
          exact absurd this hav
      | cons q qs =>
        cases hr2 : rest2 with
        | nil =>
          subst hr; subst hr2
          simp only [suffixData, List.append_nil] at hrest
          have : ('=' : Char) ∈ v2.data := by
            rw [← hrest]
            exact List.mem_append_right _
              (eq_mem_suffixData_of_ne_nil (List.cons_ne_nil q qs))
          exact absurd this hbv
        | cons q2 qs2 =>
          subst hr; subst hr2
          obtain ⟨m, w⟩ := q
          obtain ⟨m2, w2⟩ := q2
          simp only [suffixData] at hrest
          -- v.data ++ '.' :: (m.data ++ '=' :: T1) = v2.data ++ '.' :: (m2.data ++ '=' :: T2)
          have hqm : ('.' : Char) ∉ m.data ∧ ('=' : Char) ∉ m.data :=
            (harest (m, w) (List.mem_cons_self _ _)).1
          have hqm2 : ('.' : Char) ∉ m2.data ∧ ('=' : Char) ∉ m2.data :=
            (hbrest (m2, w2) (List.mem_cons_self _ _)).1
          have hshape :
              (v.data ++ '.' :: m.data) ++ '=' :: (w.data ++ suffixData qs) =
              (v2.data ++ '.' :: m2.data) ++ '=' :: (w2.data ++ suffixData qs2) := by
            simpa [List.append_assoc] using hrest
          have hfree1 : ('=' : Char) ∉ v.data ++ '.' :: m.data := by
            intro hm
            rcases List.mem_append.mp hm with hm | hm
            · exact hav hm
            · rcases List.mem_cons.mp hm with hm | hm
              · exact absurd hm (by simp)
              · exact hqm.2 hm
          have hfree2 : ('=' : Char) ∉ v2.data ++ '.' :: m2.data := by
            intro hm
            rcases List.mem_append.mp hm with hm | hm
            · exact hbv hm
            · rcases List.mem_cons.mp hm with hm | hm
              · exact absurd hm (by simp)
              · exact hqm2.2 hm
          obtain ⟨hleft, hright⟩ := split_first_sep _ _ _ _ hfree1 hfree2 hshape
          obtain ⟨hv, hm⟩ := split_last_sep v.data v2.data m.data m2.data
            hqm.1 hqm2.1 hleft
          have hv' : v = v2 := String.ext hv
          have htail : suffixData ((m, w) :: qs) = suffixData ((m2, w2) :: qs2) := by
            simp only [suffixData]
            rw [hm, hright]
          have := ih ((m2, w2) :: qs2) harest hbrest htail
          rw [hn', hv', this]

theorem catStrings_append (l1 l2 : List String) :
    catStrings (l1 ++ l2) = catStrings l1 ++ catStrings l2 := by
  induction l1 with
  | nil => simp [catStrings]
  | cons s rest ih => simp [catStrings, ih, String.append_assoc]

/-- `compute_id` of an extended lineage appends the new mapping's suffix. -/
theorem compute_id_concat (base : String) (path : List Overrides) (o : Overrides) :
    compute_id base (path ++ [o]) = compute_id base path ++ suffixStr o := by
  simp [compute_id, suffixStr, List.flatten_append, catStrings_append,
    String.append_assoc, catStrings]

/-- Sibling injectivity of `compute_id`: two variants of the same parent with
distinct well-formed override mappings get distinct ids. -/
theorem compute_id_sibling_inj (base : String) (pre : List Overrides)
    (o1 o2 : Overrides) (h1 : wfOverrides o1) (h2 : wfOverrides o2)
    (hne : o1 ≠ o2) :
    compute_id base (pre ++ [o1]) ≠ compute_id base (pre ++ [o2]) := by
  intro h
  rw [compute_id_concat, compute_id_concat] at h
  have hd := congrArg String.data h
  rw [String.data_append, String.data_append] at hd
  have := List.append_cancel_left hd
  rw [suffixStr_data, suffixStr_data] at this
  exact hne (suffixData_injective o1 o2 h1 h2 this)

/-- Modelled from the spec: the error taxonomy (spec section 7), restricted to
the errors the claims mention. -/
inductive ArtError : Type where
  | duplicateIdentityError
  | malformedLineageError
  | notFoundError
  | recordNotFoundError
  | selectorResolutionError
  | computationError (msg : String)
deriving DecidableEq

/-- Modelled from the spec: an experiment node = identity (base name plus
override path), resolved default arguments, optional display and compare
hooks (opaque tokens), and the ordered list of child variants
(spec section 3, Experiment).  The parent reference is left implicit: a
child is reachable only through its parent's `children` list. -/
inductive Experiment : Type where
  | mk (base : String) (path : List Overrides) (defaults : List (Param × Value))
      (displayHook : Option Nat) (compareHook : Option Nat)
      (children : List Experiment)

def Experiment.base : Experiment → String
  | .mk b _ _ _ _ _ => b

def Experiment.path : Experiment → List Overrides
  | .mk _ pa _ _ _ _ => pa

def Experiment.defaults : Experiment → List (Param × Value)
  | .mk _ _ d _ _ _ => d

def Experiment.displayHook : Experiment → Option Nat
  | .mk _ _ _ dh _ _ => dh

def Experiment.compareHook : Experiment → Option Nat
  | .mk _ _ _ _ ch _ => ch

def Experiment.children : Experiment → List Experiment
  | .mk _ _ _ _ _ cs => cs

/-- The canonical id of an experiment, via the Identity Resolver. -/
def Experiment.getId (e : Experiment) : String :=
  compute_id e.base e.path

/-- The override mapping this node itself introduced (empty for a root). -/
def Experiment.ownOverrides (e : Experiment) : Overrides :=
  (e.path.getLast?).getD []

/-- Lookup of a parameter in an override mapping (first match wins). -/
def ovrLookup : Overrides → Param → Option Value
  | [], _ => none
  | (n, v) :: rest, p => if n = p then some v else ovrLookup rest p

/-- Modelled from the spec: applying an override mapping to a resolved
argument set — each overridden parameter takes the new value, every other
pair is unchanged (spec invariant 3: no other divergence). -/
def applyOverrides (ds : List (Param × Value)) (o : Overrides) : List (Param × Value) :=
  ds.map fun pv =>
    match ovrLookup o pv.1 with
    | some v => (pv.1, v)
    | none => pv

/-- Whether a parameter name exists in an argument set. -/
def hasParam (ds : List (Param × Value)) (p : Param) : Bool :=
  ds.any fun d => d.1 == p

/-- Modelled from the spec: override validation — a variant must differ from
its parent by at least one parameter, and every overridden parameter must
exist on the computation signature (spec section 4.1,
MalformedLineageError). -/
def validOverrides (ds : List (Param × Value)) (o : Overrides) : Bool :=
  !o.isEmpty && o.all fun pv => hasParam ds pv.1

/-- An explicitly passed hook wins; otherwise the parent's hook is
inherited. -/
def pickHook (given inherited : Option Nat) : Option Nat :=
  match given with
  | some h => some h
  | none => inherited

/-- Whether some existing child of `p` carries exactly the override set `o`. -/
def hasDuplicateSibling (p : Experiment) (o : Overrides) : Bool :=
  p.children.any fun c => decide (c.ownOverrides = o)

/-- The child node created by a successful `add_variant`. -/
def mkChild (p : Experiment) (o : Overrides) (dh ch : Option Nat) : Experiment :=
  .mk p.base (p.path ++ [o]) (applyOverrides p.defaults o)
    (pickHook dh p.displayHook) (pickHook ch p.compareHook) []

def Experiment.withChild : Experiment → Experiment → Experiment
  | .mk b pa d dh ch cs, c => .mk b pa d dh ch (cs ++ [c])

/-- Modelled from the spec: `add_variant(parent, overrides, display_hook?,
compare_hook?)` — validates the overrides against the parent's parameter
set, fails with `DuplicateIdentityError` if that exact override set already
exists as a sibling, inherits the parent's hooks unless overridden, appends
the child to the parent's ordered child list (spec section 4.2).  Returns
the updated parent together with the new child. -/
def add_variant (p : Experiment) (o : Overrides) (dh ch : Option Nat) :
    Except ArtError (Experiment × Experiment) :=
  if validOverrides p.defaults o = false then .error .malformedLineageError
  else if hasDuplicateSibling p o then .error .duplicateIdentityError
  else
    let c := mkChild p o dh ch
    .ok (p.withChild c, c)

mutual

/-- Modelled from the spec: `get_all_variants(experiment)` — the experiment
itself followed by its descendants in deterministic pre-order, children at
each level in creation order (spec section 4.2). -/
def get_all_variants : Experiment → List Experiment
  | .mk b pa d dh ch cs => .mk b pa d dh ch cs :: variantsOfList cs

/-- Pre-order traversal of a list of sibling subtrees, in creation order. -/
def variantsOfList : List Experiment → List Experiment
  | [] => []
  | c :: rest => get_all_variants c ++ variantsOfList rest

end

/-- The root node created by `register`. -/
def rootExp (name : String) (ds : List (Param × Value)) (dh ch : Option Nat) :
    Experiment :=
  .mk name [] ds dh ch []

/-- The defaults of the tutorial computation `demo_drunkards_walk`. -/
def tutorialDefaults : List (Param × Value) :=
  [("n_steps", "500"), ("n_drunkards", "5"), ("homing_instinct", "0"),
    ("n_dim", "2"), ("seed", "1234")]

/-- The tutorial root experiment. -/
def tutorialRoot : Experiment :=
  rootExp "demo_drunkards_walk" tutorialDefaults none none

/-- The tutorial scenario: add the `homing_instinct=0.01` variant, then the
`homing_instinct=0.1` variant, then list all variant ids in pre-order. -/
def tutorialVariantIds : Except ArtError (List String) :=
  (add_variant tutorialRoot [("homing_instinct", "0.01")] none none).bind fun pr1 =>
  (add_variant pr1.1 [("homing_instinct", "0.1")] none none).bind fun pr2 =>
  .ok ((get_all_variants pr2.1).map Experiment.getId)

/-- Modelled from the spec: a variant's resolved defaults along a lineage are
the left-to-right merge of the override mappings from root to leaf applied
over the root's defaults (spec section 9, open question; invariant 3). -/
def resolvedDefaults (rootDefs : List (Param × Value)) (path : List Overrides) :
    List (Param × Value) :=
  path.foldl applyOverrides rootDefs

instance (o : Overrides) : Decidable (wfOverrides o) := by
  unfold wfOverrides
  infer_instance


theorem variantsOfList_eq (cs : List Experiment) :
    variantsOfList cs = (cs.map get_all_variants).flatten := by
  induction cs with
  | nil => rfl
  | cons c rest ih => simp [variantsOfList, ih]

theorem get_all_variants_eq (e : Experiment) :
    get_all_variants e = e :: (e.children.map get_all_variants).flatten := by
  cases e with
  | mk b pa d dh ch cs =>
    rw [get_all_variants, variantsOfList_eq]
    rfl

theorem add_variant_ok {p : Experiment} {o : Overrides} {dh ch : Option Nat}
    {q c : Experiment} (h : add_variant p o dh ch = .ok (q, c)) :
    q = p.withChild (mkChild p o dh ch) ∧ c = mkChild p o dh ch := by
  unfold add_variant at h
  split at h
  · simp at h
  · split at h
    · simp at h
    · simp only [Except.ok.injEq, Prod.mk.injEq] at h
      exact ⟨h.1.symm, h.2.symm⟩

/-- C1 (counterexample to global injectivity): two distinct valid lineages —
a single variant overriding both `x` and `y`, versus a variant-of-a-variant
overriding `x` then `y` — produce the same canonical id. -/
theorem compute_id_not_injective_on_lineages :
    compute_id "a" [[("x", "1"), ("y", "2")]] =
      compute_id "a" [[("x", "1")], [("y", "2")]] ∧
    ([[("x", "1"), ("y", "2")]] : List Overrides) ≠ [[("x", "1")], [("y", "2")]] :=
  ⟨rfl, by decide⟩

/-- C1 (amended): `compute_id` is deterministic (a pure function of the
lineage); the id is the base name followed by one `.<param>=<value>` suffix
per override in application order, with no suffix for a root; and it is
injective on siblings: two variants of the same parent with distinct
override mappings get distinct ids, provided parameter names avoid the `.`
and `=` separators and values avoid `=`. -/
theorem C1_compute_id_spec :
    (∀ b : String, compute_id b [] = b) ∧
    (∀ (b : String) (path : List Overrides) (o : Overrides),
      compute_id b (path ++ [o]) = compute_id b path ++ suffixStr o) ∧
    (∀ (pv : Param × Value) (o : Overrides),
      suffixStr (pv :: o) = "." ++ pv.1 ++ "=" ++ pv.2 ++ suffixStr o) ∧
    (∀ e1 e2 : Experiment, e1.base = e2.base → e1.path = e2.path →
      e1.getId = e2.getId) ∧
    (∀ (b : String) (pre : List Overrides) (o1 o2 : Overrides),
      wfOverrides o1 → wfOverrides o2 → o1 ≠ o2 →
      compute_id b (pre ++ [o1]) ≠ compute_id b (pre ++ [o2])) := by
  refine ⟨?_, compute_id_concat, ?_, ?_, compute_id_sibling_inj⟩
  · intro b
    simp [compute_id, catStrings, String.append_empty]
  · intro pv o
    simp [suffixStr, List.map_cons, catStrings, overrideSuffix, String.append_assoc]
  · intro e1 e2 hb hp
    simp [Experiment.getId, hb, hp]

/-- C1 witness: the amended theorem applied to the tutorial's experiment —
the root id has no suffix, and the two sibling variants `0.01` and `0.1`
get distinct ids. -/
theorem C1_compute_id_spec_witness :
    compute_id "demo_drunkards_walk" [] = "demo_drunkards_walk" ∧
    compute_id "demo_drunkards_walk" ([] ++ [[("homing_instinct", "0.01")]]) ≠
      compute_id "demo_drunkards_walk" ([] ++ [[("homing_instinct", "0.1")]]) :=
  ⟨C1_compute_id_spec.1 "demo_drunkards_walk",
    C1_compute_id_spec.2.2.2.2 "demo_drunkards_walk" []
      [("homing_instinct", "0.01")] [("homing_instinct", "0.1")]
      (by decide) (by decide) (by decide)⟩

/-- C2: `add_variant p o` fails with `DuplicateIdentityError` exactly when an
already-existing child of `p` carries exactly the override set `o` (the
hypothesis states that existing children passed override validation, as
the registry guarantees); on success the child inherits the parent's
display and compare hooks unless they are overridden in the call. -/
theorem C2_add_variant_duplicate_iff (p : Experiment) (o : Overrides)
    (dh ch : Option Nat)
    (hwf : ∀ c ∈ p.children, validOverrides p.defaults c.ownOverrides = true) :
    (add_variant p o dh ch = .error .duplicateIdentityError ↔
      ∃ c ∈ p.children, c.ownOverrides = o) ∧
    ∀ q c, add_variant p o dh ch = .ok (q, c) →
      (dh = none → c.displayHook = p.displayHook) ∧
      (∀ h, dh = some h → c.displayHook = some h) ∧
      (ch = none → c.compareHook = p.compareHook) ∧
      (∀ h, ch = some h → c.compareHook = some h) := by
  constructor
  · constructor
    · intro h
      by_cases hv : validOverrides p.defaults o = false
      · simp [add_variant, hv] at h
      · by_cases hd : hasDuplicateSibling p o = true
        · obtain ⟨c, hc, hco⟩ := List.any_eq_true.mp hd
          exact ⟨c, hc, of_decide_eq_true hco⟩
        · simp [add_variant, hv, hd] at h
    · rintro ⟨c, hc, hco⟩
      have hvalid : validOverrides p.defaults o = true := by
        have := hwf c hc
        rwa [hco] at this
      have hdup : hasDuplicateSibling p o = true :=
        List.any_eq_true.mpr ⟨c, hc, decide_eq_true hco⟩
      simp [add_variant, hvalid, hdup]
  · intro q c h
    obtain ⟨-, hc⟩ := add_variant_ok h
    subst hc
    refine ⟨?_, ?_, ?_, ?_⟩
    · intro hdh
      simp [mkChild, Experiment.displayHook, hdh, pickHook]
    · intro hk hdh
      simp [mkChild, Experiment.displayHook, hdh, pickHook]
    · intro hch
      simp [mkChild, Experiment.compareHook, hch, pickHook]
    · intro hk hch
      simp [mkChild, Experiment.compareHook, hch, pickHook]

/-- C2 witness: on a concrete parent with one child carrying
`homing_instinct=0.01`, adding that same override set again is reported as a
duplicate identity. -/
theorem C2_add_variant_duplicate_iff_witness :
    (add_variant
        ((rootExp "demo_drunkards_walk" tutorialDefaults none none).withChild
          (mkChild (rootExp "demo_drunkards_walk" tutorialDefaults none none)
            [("homing_instinct", "0.01")] none none))
        [("homing_instinct", "0.01")] none none =
      .error .duplicateIdentityError) := by
  refine (C2_add_variant_duplicate_iff _ [("homing_instinct", "0.01")]
    none none ?_).1.mpr ?_
  · intro c hc
    have hc2 : c = mkChild (rootExp "demo_drunkards_walk" tutorialDefaults none none)
        [("homing_instinct", "0.01")] none none := by
      simpa [Experiment.withChild, rootExp, Experiment.children] using hc
    subst hc2
    decide
  · exact ⟨mkChild (rootExp "demo_drunkards_walk" tutorialDefaults none none)
      [("homing_instinct", "0.01")] none none, List.mem_cons_self _ _, by decide⟩

/-- C3: `get_all_variants` returns the experiment itself followed by its
descendants in deterministic pre-order, children at each level in creation
order; in the tutorial scenario (variants `homing_instinct=0.01` then
`homing_instinct=0.1` added to the root) the ids come out as
`[root, root.homing_instinct=0.01, root.homing_instinct=0.1]`. -/
theorem C3_get_all_variants_preorder :
    (∀ e : Experiment,
      get_all_variants e = e :: (e.children.map get_all_variants).flatten) ∧
    tutorialVariantIds = .ok ["demo_drunkards_walk",
      "demo_drunkards_walk.homing_instinct=0.01",
      "demo_drunkards_walk.homing_instinct=0.1"] :=
  ⟨get_all_variants_eq, rfl⟩

/-- C6: the defaults invariant — a root's resolved defaults are its declared
defaults; a variant's resolved defaults equal the parent's defaults with the
variant's own overrides applied (and its path extends the parent's by that
mapping); consequently, along a multi-level lineage the resolved defaults
are the left-to-right merge of the override mappings from root to leaf
applied over the root's defaults. -/
theorem C6_resolved_defaults_invariant :
    (∀ (name : String) (ds : List (Param × Value)) (dh ch : Option Nat),
      (rootExp name ds dh ch).defaults =
        resolvedDefaults ds (rootExp name ds dh ch).path) ∧
    (∀ (p : Experiment) (o : Overrides) (dh ch : Option Nat) (q c : Experiment),
      add_variant p o dh ch = .ok (q, c) →
      c.defaults = applyOverrides p.defaults o ∧ c.path = p.path ++ [o]) ∧
    (∀ (rd : List (Param × Value)) (p : Experiment) (o : Overrides)
        (dh ch : Option Nat) (q c : Experiment),
      add_variant p o dh ch = .ok (q, c) →
      p.defaults = resolvedDefaults rd p.path →
      c.defaults = resolvedDefaults rd c.path) := by
  have hstep : ∀ (p : Experiment) (o : Overrides) (dh ch : Option Nat)
      (q c : Experiment), add_variant p o dh ch = .ok (q, c) →
      c.defaults = applyOverrides p.defaults o ∧ c.path = p.path ++ [o] := by
    intro p o dh ch q c h
    obtain ⟨-, hc⟩ := add_variant_ok h
    subst hc
    exact ⟨rfl, rfl⟩
  refine ⟨fun name ds dh ch => rfl, hstep, ?_⟩
  intro rd p o dh ch q c h hp
  obtain ⟨hd, hpath⟩ := hstep p o dh ch q c h
  rw [hd, hpath, resolvedDefaults, List.foldl_append, hp]
  rfl

/-- C6 witness: in the tutorial, the `homing_instinct=0.01` variant's
resolved defaults equal the root defaults with that single override
applied. -/
theorem C6_resolved_defaults_invariant_witness :
    (mkChild tutorialRoot [("homing_instinct", "0.01")] none none).defaults =
      applyOverrides tutorialRoot.defaults [("homing_instinct", "0.01")] ∧
    (mkChild tutorialRoot [("homing_instinct", "0.01")] none none).path =
      tutorialRoot.path ++ [[("homing_instinct", "0.01")]] :=
  C6_resolved_defaults_invariant.2.1 tutorialRoot [("homing_instinct", "0.01")]
    none none _ _ rfl

/-- Modelled from the spec: a Record's status (spec section 3, Record). -/
inductive RecStatus : Type where
  | running
  | completed
  | failed
deriving DecidableEq

/-- Modelled from the spec: the artifact of one execution — experiment id,
run identifier, status, the argument set it ran with, captured console
text, serialized return value (present only when completed), error text
(present only when failed), and the orphan marker set by `clear_all`
(spec section 3, Record; invariant 2). -/
structure Record : Type where
  expId : String
  runId : Nat
  status : RecStatus
  args : List (Param × Value)
  console : String
  value : Option String
  errorText : Option String
  orphaned : Bool
deriving DecidableEq

/-- Modelled from the spec: the process-wide state — the registry's root
experiments in registration order, and the record store's append-only
sequence of records in creation order (spec sections 4.2 and 4.3). -/
structure Sys : Type where
  registry : List Experiment
  records : List Record

/-- Whether a root experiment with the given base name is registered. -/
def nameExists (sys : Sys) (name : String) : Bool :=
  sys.registry.any fun e => e.base == name

/-- Modelled from the spec: `register(name, computation, default_args,
display_hook?, compare_hook?)` — creates a root node, failing with
`DuplicateIdentityError` if the name already exists in the registry
(spec section 4.2). -/
def register (sys : Sys) (name : String) (ds : List (Param × Value))
    (dh ch : Option Nat) : Except ArtError (Sys × Experiment) :=
  if nameExists sys name then .error .duplicateIdentityError
  else
    let e := rootExp name ds dh ch
    .ok ({ sys with registry := sys.registry ++ [e] }, e)

/-- Orphan-marking of a record, performed by `clear_all`. -/
def markOrphaned (r : Record) : Record :=
  { r with orphaned := true }

/-- Modelled from the spec: `clear_all()` — empties the registry and orphans
(but does not delete) existing Records (spec section 4.2). -/
def clear_all (sys : Sys) : Sys :=
  { registry := [], records := sys.records.map markOrphaned }

/-- Modelled from the spec: `list(experiment_id)` — the ordered records of
one experiment, newest-last (spec section 4.3). -/
def listRecords (sys : Sys) (eid : String) : List Record :=
  sys.records.filter fun r => r.expId == eid

/-- Modelled from the spec: `get(experiment_id, run_identifier)`; fails with
`RecordNotFoundError` (spec section 4.3). -/
def getRecord (sys : Sys) (eid : String) (rid : Nat) : Except ArtError Record :=
  match sys.records.find? (fun r => r.expId == eid && r.runId == rid) with
  | some r => .ok r
  | none => .error .recordNotFoundError

/-- Modelled from the spec: `delete(experiment_id, run_identifier)` —
irreversibly removes a Record's persisted data (spec section 4.3). -/
def deleteRecord (sys : Sys) (eid : String) (rid : Nat) : Sys :=
  { sys with records := sys.records.filter fun r => !(r.expId == eid && r.runId == rid) }

/-- Modelled from the spec: the fresh run identifier allocated by `begin` —
strictly larger than every run identifier already stored for this
experiment id (spec section 4.3). -/
def nextRunId (sys : Sys) (eid : String) : Nat :=
  (listRecords sys eid).foldl (fun m r => max m r.runId) 0 + 1

/-- The observable behaviour of one invocation of a user computation:
either a return value together with the console text it emitted, or a
raised error message together with the console text captured so far. -/
inductive Outc (α : Type) : Type where
  | ok (v : α) (console : String)
  | err (msg : String) (console : String)

/-- Modelled from the spec: the execution policy knobs the claims mention
(spec section 4.4). -/
structure Policy : Type where
  suppress_errors : Bool
  skip_if_record_exists : Bool

/-- The most recent completed record of an experiment with a given exact
argument set, used by the `skip_if_record_exists` policy. -/
def latestCompletedWithArgs (sys : Sys) (eid : String)
    (args : List (Param × Value)) : Option Record :=
  ((listRecords sys eid).filter fun r =>
    decide (r.status = .completed) && decide (r.args = args)).getLast?

/-- Finalization of a run: persists the completed or failed record
(append-only), and either returns the record or re-raises the
computation error according to `policy.suppress_errors`
(spec section 4.4, steps 6-7).  `begin` (status running) and `finalize`
are fused: in this sequential model the intermediate running record is
never observable. -/
def finalizeOutcome {α : Type} (ser : α → String) (sys : Sys) (eid : String)
    (args : List (Param × Value)) (rid : Nat) (pol : Policy) :
    Outc α → Sys × Except ArtError Record
  | .ok v t =>
    let r : Record := ⟨eid, rid, .completed, args, t, some (ser v), none, false⟩
    ({ sys with records := sys.records ++ [r] }, .ok r)
  | .err msg t =>
    let r : Record := ⟨eid, rid, .failed, args, t, none, some msg, false⟩
    ({ sys with records := sys.records ++ [r] },
      if pol.suppress_errors then .ok r else .error (.computationError msg))

/-- Modelled from the spec: `run(experiment, run_time_overrides, policy)` —
resolves the final argument set from the experiment defaults and the
run-time overrides, honours `skip_if_record_exists`, invokes the
computation and finalizes a record (spec section 4.4).  The computation is
its observable behaviour (arguments to outcome); the serializer `ser` is
the pluggable return-value codec. -/
def run {α : Type} (ser : α → String) (sys : Sys) (e : Experiment)
    (comp : List (Param × Value) → Outc α) (rt : Overrides) (pol : Policy) :
    Sys × Except ArtError Record :=
  match (if pol.skip_if_record_exists
      then latestCompletedWithArgs sys e.getId (applyOverrides e.defaults rt)
      else none) with
  | some r => (sys, .ok r)
  | none =>
    finalizeOutcome ser sys e.getId (applyOverrides e.defaults rt)
      (nextRunId sys e.getId) pol (comp (applyOverrides e.defaults rt))

/-- Modelled from the spec: `experiment.get_records()` — the stored records
of this experiment, oldest first (tutorial cell 19). -/
def get_records (sys : Sys) (e : Experiment) : List Record :=
  listRecords sys e.getId

/-- Every experiment currently in the registry, roots and variants, in
registration/creation pre-order. -/
def allExperiments (sys : Sys) : List Experiment :=
  variantsOfList sys.registry

/-- Modelled from the spec: `record.get_experiment()` — the registered
experiment whose id equals the experiment id stored in the record
(tutorial cell 23; spec section 4.2 `lookup`). -/
def get_experiment (sys : Sys) (r : Record) : Except ArtError Experiment :=
  match (allExperiments sys).find? (fun e => e.getId == r.expId) with
  | some e => .ok e
  | none => .error .notFoundError

/-- Splitting a character list on a separator character. -/
def splitOnChar (sep : Char) : List Char → List (List Char)
  | [] => [[]]
  | c :: rest =>
    if c = sep then [] :: splitOnChar sep rest
    else
      match splitOnChar sep rest with
      | [] => [[c]]
      | g :: gs => (c :: g) :: gs

/-- Parsing a digit string into a number (empty and non-digit strings are
rejected). -/
def natOfCharsAux : List Char → Nat → Option Nat
  | [], acc => some acc
  | c :: rest, acc =>
    if c.isDigit then natOfCharsAux rest (acc * 10 + (c.toNat - 48))
    else none

/-- Parsing a non-empty digit string into a number. -/
def natOfChars? : List Char → Option Nat
  | [] => none
  | cs => natOfCharsAux cs 0

/-- Modelled from the spec: the selector token grammar — keyword `all`,
integer index, integer range `a-b`, or dotted experiment id
(spec section 4.5). -/
inductive SelToken : Type where
  | all
  | idx (i : Nat)
  | irange (a b : Nat)
  | ident (s : String)
deriving DecidableEq

/-- Parsing one selector token. -/
def parseToken (tok : String) : SelToken :=
  if tok = "all" then .all
  else
    match natOfChars? tok.data with
    | some i => .idx i
    | none =>
      match splitOnChar '-' tok.data with
      | [as, bs] =>
        match natOfChars? as, natOfChars? bs with
        | some a, some b => .irange a b
        | _, _ => .ident tok
      | _ => .ident tok

/-- Modelled from the spec: resolution of one selector token against the
current registry ordering — `all` is every experiment in order, an index
selects one experiment, a range `a-b` the experiments at indices `a`
through `b` in order, a dotted id an exact or unique-partial id match;
empty results, out-of-range indices and ambiguous partial matches fail
with `SelectorResolutionError` (spec section 4.5). -/
def resolveToken (exps : List Experiment) (tok : String) :
    Except ArtError (List Experiment) :=
  match parseToken tok with
  | .all => .ok exps
  | .idx i =>
    if i < exps.length then .ok ((exps.drop i).take 1)
    else .error .selectorResolutionError
  | .irange a b =>
    if a ≤ b ∧ b < exps.length then .ok ((exps.drop a).take (b - a + 1))
    else .error .selectorResolutionError
  | .ident s =>
    match exps.filter fun e => decide (e.getId = s) with
    | [e] => .ok [e]
    | _ =>
      match exps.filter fun e => e.getId.startsWith s with
      | [e] => .ok [e]
      | _ => .error .selectorResolutionError

/-- Resolution of a list of selector tokens, concatenating results in
order. -/
def resolveTokens (exps : List Experiment) :
    List String → Except ArtError (List Experiment)
  | [] => .ok []
  | t :: ts =>
    (resolveToken exps t).bind fun l1 =>
    (resolveTokens exps ts).bind fun l2 => .ok (l1 ++ l2)

/-- Modelled from the spec: a selector is a comma-separated list of tokens
(spec section 4.5). -/
def resolveSelector (exps : List Experiment) (sel : String) :
    Except ArtError (List Experiment) :=
  resolveTokens exps ((splitOnChar ',' sel.data).map fun g => String.mk g)

theorem getRecord_clear_all (sys : Sys) (eid : String) (rid : Nat) (r : Record)
    (h : getRecord sys eid rid = .ok r) :
    getRecord (clear_all sys) eid rid = .ok (markOrphaned r) := by
  unfold getRecord at h ⊢
  have hmap : (clear_all sys).records.find? (fun rr => rr.expId == eid && rr.runId == rid) =
      (sys.records.find? (fun rr => rr.expId == eid && rr.runId == rid)).map markOrphaned := by
    show (sys.records.map markOrphaned).find? _ = _
    rw [List.find?_map]
    rfl
  rw [hmap]
  cases hf : sys.records.find? (fun rr => rr.expId == eid && rr.runId == rid) with
  | none => rw [hf] at h; simp at h
  | some r0 =>
    rw [hf] at h
    simp only [Except.ok.injEq] at h
    subst h
    rfl

/-- C5: `register` fails with `DuplicateIdentityError` exactly when the name
is already present in the registry; `clear_all` empties the registry (so no
name exists afterwards and re-registering the same base name succeeds with a
fresh entry), while records stored before the clear stay retrievable under
their original experiment id and are marked orphaned. -/
theorem C5_register_clear_all (sys : Sys) (name : String)
    (ds : List (Param × Value)) (dh ch : Option Nat) :
    (register sys name ds dh ch = .error .duplicateIdentityError ↔
      nameExists sys name = true) ∧
    (∀ n, nameExists (clear_all sys) n = false) ∧
    (register (clear_all sys) name ds dh ch =
      .ok ({ registry := [rootExp name ds dh ch],
             records := sys.records.map markOrphaned },
           rootExp name ds dh ch)) ∧
    (∀ (eid : String) (rid : Nat) (r : Record), getRecord sys eid rid = .ok r →
      getRecord (clear_all sys) eid rid = .ok (markOrphaned r)) ∧
    (∀ r ∈ (clear_all sys).records, r.orphaned = true) := by
  refine ⟨?_, ?_, ?_, fun eid rid r h => getRecord_clear_all sys eid rid r h, ?_⟩
  · constructor
    · intro h
      by_cases he : nameExists sys name = true
      · exact he
      · simp [register, he] at h
    · intro he
      simp [register, he]
  · intro n
    simp [nameExists, clear_all]
  · simp [register, nameExists, clear_all]
  · intro r hr
    simp only [clear_all, List.mem_map] at hr
    obtain ⟨r0, -, hr0⟩ := hr
    rw [← hr0]
    rfl

/-- C5 witness: the theorem applied to a one-experiment, one-record state —
after `clear_all`, re-registering `demo_drunkards_walk` succeeds and the
stored record is still retrievable, now marked orphaned. -/
theorem C5_register_clear_all_witness :
    (register
        (clear_all ⟨[rootExp "demo_drunkards_walk" tutorialDefaults none none],
          [⟨"demo_drunkards_walk", 1, .completed, [], "out", some "7", none, false⟩]⟩)
        "demo_drunkards_walk" tutorialDefaults none none =
      .ok ({ registry := [rootExp "demo_drunkards_walk" tutorialDefaults none none],
             records := [⟨"demo_drunkards_walk", 1, .completed, [], "out", some "7",
               none, true⟩] },
           rootExp "demo_drunkards_walk" tutorialDefaults none none)) ∧
    (getRecord
        (clear_all ⟨[rootExp "demo_drunkards_walk" tutorialDefaults none none],
          [⟨"demo_drunkards_walk", 1, .completed, [], "out", some "7", none, false⟩]⟩)
        "demo_drunkards_walk" 1 =
      .ok ⟨"demo_drunkards_walk", 1, .completed, [], "out", some "7", none, true⟩) :=
  ⟨(C5_register_clear_all
      ⟨[rootExp "demo_drunkards_walk" tutorialDefaults none none],
        [⟨"demo_drunkards_walk", 1, .completed, [], "out", some "7", none, false⟩]⟩
      "demo_drunkards_walk" tutorialDefaults none none).2.2.1,
   (C5_register_clear_all
      ⟨[rootExp "demo_drunkards_walk" tutorialDefaults none none],
        [⟨"demo_drunkards_walk", 1, .completed, [], "out", some "7", none, false⟩]⟩
      "demo_drunkards_walk" tutorialDefaults none none).2.2.2.1
      "demo_drunkards_walk" 1
      ⟨"demo_drunkards_walk", 1, .completed, [], "out", some "7", none, false⟩
      (by rfl)⟩

/-- C7: deleting a record removes it from subsequent `list` results for its
experiment, and record deletion never touches the registry — in particular
deleting every record of an experiment (any fold of deletions) leaves the
registry, hence the experiment itself, unchanged. -/
theorem C7_delete_record_frame :
    (∀ (sys : Sys) (eid : String) (rid : Nat),
      (listRecords (deleteRecord sys eid rid) eid).all
        (fun r => r.runId != rid) = true) ∧
    (∀ (sys : Sys) (eid : String) (rid : Nat),
      (deleteRecord sys eid rid).registry = sys.registry) ∧
    (∀ (sys : Sys) (eid : String) (rids : List Nat),
      (rids.foldl (fun s rid => deleteRecord s eid rid) sys).registry =
        sys.registry) := by
  refine ⟨?_, fun sys eid rid => rfl, ?_⟩
  · intro sys eid rid
    rw [List.all_eq_true]
    intro r hr
    have h1 := List.mem_filter.mp hr
    have h2 := List.mem_filter.mp h1.1
    have heid : (r.expId == eid) = true := h1.2
    have hnot := h2.2
    simp only [Bool.not_eq_true'] at hnot
    rw [heid, Bool.true_and] at hnot
    simpa using hnot
  · intro sys eid rids
    induction rids generalizing sys with
    | nil => rfl
    | cons rid rest ih =>
      rw [List.foldl_cons, ih]
      rfl

/-- C9: selector resolution — the range token `0-2` against three
experiments yields exactly that ordered triple, the token `all` yields
every registered experiment in registration order, and a token parsing as
an integer index at or beyond the registry size fails with
`SelectorResolutionError`. -/
theorem C9_selector_resolution :
    (∀ e0 e1 e2 : Experiment, resolveToken [e0, e1, e2] "0-2" = .ok [e0, e1, e2]) ∧
    (∀ (exps : List Experiment) (tok : String) (a b : Nat),
      parseToken tok = .irange a b → a ≤ b → b < exps.length →
      resolveToken exps tok = .ok ((exps.drop a).take (b - a + 1))) ∧
    (∀ exps : List Experiment, resolveToken exps "all" = .ok exps) ∧
    (∀ (exps : List Experiment) (tok : String) (i : Nat),
      parseToken tok = .idx i → exps.length ≤ i →
      resolveToken exps tok = .error .selectorResolutionError) := by
  refine ⟨fun e0 e1 e2 => rfl, ?_, fun exps => rfl, ?_⟩
  · intro exps tok a b hp hab hb
    unfold resolveToken
    rw [hp]
    change (if a ≤ b ∧ b < exps.length
        then Except.ok ((exps.drop a).take (b - a + 1))
        else Except.error ArtError.selectorResolutionError) = _
    rw [if_pos ⟨hab, hb⟩]
  · intro exps tok i hp hlen
    unfold resolveToken
    rw [hp]
    change (if i < exps.length then Except.ok ((exps.drop i).take 1)
      else Except.error ArtError.selectorResolutionError) = _
    rw [if_neg (by omega)]

/-- C9 witness: the index token `5` against an empty registry is
out of range and fails with `SelectorResolutionError`. -/
theorem C9_selector_resolution_witness :
    parseToken "5" = SelToken.idx 5 ∧
    resolveToken ([] : List Experiment) "5" = .error .selectorResolutionError :=
  ⟨by decide, C9_selector_resolution.2.2.2 [] "5" 5 (by decide) (by decide)⟩

theorem acc_le_foldl_max (l : List Record) (acc : Nat) :
    acc ≤ l.foldl (fun m r => max m r.runId) acc := by
  induction l generalizing acc with
  | nil => exact le_refl acc
  | cons x xs ih => exact le_trans (le_max_left acc x.runId) (ih (max acc x.runId))

theorem mem_le_foldl_max (l : List Record) (r : Record) :
    ∀ acc, r ∈ l → r.runId ≤ l.foldl (fun m rr => max m rr.runId) acc := by
  induction l with
  | nil =>
    intro acc hr
    cases hr
  | cons x xs ih =>
    intro acc hr
    rcases List.mem_cons.mp hr with h | h
    · subst h
      exact le_trans (le_max_right acc r.runId) (acc_le_foldl_max xs (max acc r.runId))
    · exact ih (max acc x.runId) h

theorem runId_lt_nextRunId (sys : Sys) (eid : String) (r : Record)
    (hr : r ∈ sys.records) (he : (r.expId == eid) = true) :
    r.runId < nextRunId sys eid := by
  have hmem : r ∈ listRecords sys eid := List.mem_filter.mpr ⟨hr, he⟩
  have := mem_le_foldl_max (listRecords sys eid) r 0 hmem
  unfold nextRunId
  omega

theorem find?_new_runId (sys : Sys) (eid : String) :
    sys.records.find?
      (fun rr => rr.expId == eid && rr.runId == nextRunId sys eid) = none := by
  rw [List.find?_eq_none]
  intro x hx hpx
  simp only [Bool.and_eq_true, beq_iff_eq] at hpx
  have h1 := runId_lt_nextRunId sys eid x hx (by simp [hpx.1])
  have h2 := hpx.2
  omega

theorem listRecords_append_getLast? (sys : Sys) (r : Record) (eid : String)
    (h : r.expId = eid) :
    (listRecords { sys with records := sys.records ++ [r] } eid).getLast? =
      some r := by
  unfold listRecords
  show (List.filter (fun rr => rr.expId == eid) (sys.records ++ [r])).getLast? = _
  rw [List.filter_append]
  have hf : List.filter (fun rr => rr.expId == eid) [r] = [r] := by
    simp [List.filter, h]
  rw [hf, List.getLast?_concat]

theorem getRecord_append_new (sys : Sys) (r : Record) (eid : String)
    (heid : r.expId = eid) (hrid : r.runId = nextRunId sys eid) :
    getRecord { sys with records := sys.records ++ [r] } eid r.runId = .ok r := by
  unfold getRecord
  have hnone :
      sys.records.find? (fun rr => rr.expId == eid && rr.runId == r.runId) = none := by
    rw [hrid]
    exact find?_new_runId sys eid
  have hone :
      [r].find? (fun rr => rr.expId == eid && rr.runId == r.runId) = some r := by
    simp [List.find?, heid]
  show (match (sys.records ++ [r]).find?
      (fun rr => rr.expId == eid && rr.runId == r.runId) with
    | some rr => Except.ok rr
    | none => Except.error ArtError.recordNotFoundError) = Except.ok r
  rw [List.find?_append, hnone, hone]
  rfl

/-- C4: round-trip of a successful execution — running a computation that
returns `v` and emits console text `t` (with the skip-cache policy off)
appends a completed record that is the last entry of `list` for the
experiment, is returned by `get` at its run identifier, carries exactly the
console text `t`, and whose stored return value deserializes back to `v`
(for any serializer/deserializer pair that round-trips). -/
theorem C4_run_roundtrip {α : Type} (ser : α → String) (de : String → Option α)
    (sys : Sys) (e : Experiment) (comp : List (Param × Value) → Outc α)
    (rt : Overrides) (pol : Policy) (v : α) (t : String)
    (hde : ∀ x, de (ser x) = some x)
    (hc : comp (applyOverrides e.defaults rt) = .ok v t)
    (hskip : pol.skip_if_record_exists = false) :
    ∃ r : Record,
      (run ser sys e comp rt pol).2 = .ok r ∧
      (listRecords (run ser sys e comp rt pol).1 e.getId).getLast? = some r ∧
      getRecord (run ser sys e comp rt pol).1 e.getId r.runId = .ok r ∧
      r.console = t ∧ r.value.bind de = some v ∧ r.status = .completed := by
  have hrun : run ser sys e comp rt pol =
      ({ sys with records := sys.records ++
          [⟨e.getId, nextRunId sys e.getId, .completed,
            applyOverrides e.defaults rt, t, some (ser v), none, false⟩] },
        .ok ⟨e.getId, nextRunId sys e.getId, .completed,
          applyOverrides e.defaults rt, t, some (ser v), none, false⟩) := by
    unfold run
    rw [hskip]
    show finalizeOutcome ser sys e.getId (applyOverrides e.defaults rt)
      (nextRunId sys e.getId) pol (comp (applyOverrides e.defaults rt)) = _
    rw [hc]
    rfl
  refine ⟨⟨e.getId, nextRunId sys e.getId, .completed,
      applyOverrides e.defaults rt, t, some (ser v), none, false⟩,
    by rw [hrun], ?_, ?_, rfl, hde v, rfl⟩
  · rw [hrun]
    exact listRecords_append_getLast? sys _ e.getId rfl
  · rw [hrun]
    exact getRecord_append_new sys _ e.getId rfl rfl

/-- C4 witness: running a computation that returns the string `7` and emits
`hello` on an empty store, with the identity codec, and reading the record
back. -/
theorem C4_run_roundtrip_witness :
    ∃ r : Record,
      (run (fun x : String => x) ⟨[], []⟩ tutorialRoot
        (fun _ => Outc.ok "7" "hello") [] ⟨false, false⟩).2 = .ok r ∧
      (listRecords (run (fun x : String => x) ⟨[], []⟩ tutorialRoot
        (fun _ => Outc.ok "7" "hello") [] ⟨false, false⟩).1
        tutorialRoot.getId).getLast? = some r ∧
      getRecord (run (fun x : String => x) ⟨[], []⟩ tutorialRoot
        (fun _ => Outc.ok "7" "hello") [] ⟨false, false⟩).1
        tutorialRoot.getId r.runId = .ok r ∧
      r.console = "hello" ∧ r.value.bind (fun x => some x) = some "7" ∧
      r.status = .completed :=
  C4_run_roundtrip (fun x => x) (fun x => some x) ⟨[], []⟩ tutorialRoot
    (fun _ => Outc.ok "7" "hello") [] ⟨false, false⟩ "7" "hello"
    (fun _ => rfl) rfl rfl

/-- C8: when the computation raises, the engine finalizes a failed record
carrying the error text and the console text captured so far; the error is
re-raised to the caller when `policy.suppress_errors` is not set, and the
failed record is returned instead when it is set. -/
theorem C8_run_failure {α : Type} (ser : α → String) (sys : Sys) (e : Experiment)
    (comp : List (Param × Value) → Outc α) (rt : Overrides) (pol : Policy)
    (msg t : String)
    (hc : comp (applyOverrides e.defaults rt) = .err msg t)
    (hskip : pol.skip_if_record_exists = false) :
    ∃ r : Record,
      r ∈ (run ser sys e comp rt pol).1.records ∧
      r.status = .failed ∧ r.errorText = some msg ∧ r.console = t ∧
      r.expId = e.getId ∧
      (pol.suppress_errors = true → (run ser sys e comp rt pol).2 = .ok r) ∧
      (pol.suppress_errors = false →
        (run ser sys e comp rt pol).2 = .error (.computationError msg)) := by
  have hrun : run ser sys e comp rt pol =
      ({ sys with records := sys.records ++
          [⟨e.getId, nextRunId sys e.getId, .failed,
            applyOverrides e.defaults rt, t, none, some msg, false⟩] },
        if pol.suppress_errors
        then .ok ⟨e.getId, nextRunId sys e.getId, .failed,
          applyOverrides e.defaults rt, t, none, some msg, false⟩
        else .error (.computationError msg)) := by
    unfold run
    rw [hskip]
    show finalizeOutcome ser sys e.getId (applyOverrides e.defaults rt)
      (nextRunId sys e.getId) pol (comp (applyOverrides e.defaults rt)) = _
    rw [hc]
    rfl
  refine ⟨⟨e.getId, nextRunId sys e.getId, .failed,
      applyOverrides e.defaults rt, t, none, some msg, false⟩,
    ?_, rfl, rfl, rfl, rfl, ?_, ?_⟩
  · rw [hrun]
    simp
  · intro hs
    rw [hrun]
    simp [hs]
  · intro hs
    rw [hrun]
    simp [hs]

/-- C8 witness: a computation that raises `boom` after emitting `logtext`,
run with `suppress_errors` set — the failed record is returned instead of
the error being re-raised. -/
theorem C8_run_failure_witness :
    ∃ r : Record,
      r ∈ (run (fun x : String => x) ⟨[], []⟩ tutorialRoot
        (fun _ => Outc.err "boom" "logtext") [] ⟨true, false⟩).1.records ∧
      r.status = .failed ∧ r.errorText = some "boom" ∧ r.console = "logtext" ∧
      r.expId = tutorialRoot.getId ∧
      ((true : Bool) = true → (run (fun x : String => x) ⟨[], []⟩ tutorialRoot
        (fun _ => Outc.err "boom" "logtext") [] ⟨true, false⟩).2 = .ok r) ∧
      ((true : Bool) = false → (run (fun x : String => x) ⟨[], []⟩ tutorialRoot
        (fun _ => Outc.err "boom" "logtext") [] ⟨true, false⟩).2 =
          .error (.computationError "boom")) :=
  C8_run_failure (fun x => x) ⟨[], []⟩ tutorialRoot
    (fun _ => Outc.err "boom" "logtext") [] ⟨true, false⟩ "boom" "logtext" rfl rfl

/-- C10: record-to-experiment navigation round-trips — for an experiment in
the registry and a record obtained from it via `get_records`,
`get_experiment` succeeds and returns an experiment whose canonical id
equals the experiment's canonical id. -/
theorem C10_get_experiment_roundtrip (sys : Sys) (e : Experiment) (r : Record)
    (he : e ∈ allExperiments sys) (hr : r ∈ get_records sys e) :
    ∃ e2 : Experiment, get_experiment sys r = .ok e2 ∧ e2.getId = e.getId := by
  have hid : r.expId = e.getId := by
    have := (List.mem_filter.mp hr).2
    simpa using this
  cases hfind : (allExperiments sys).find? (fun x => x.getId == r.expId) with
  | none =>
    exfalso
    have := List.find?_eq_none.mp hfind e he
    simp [hid] at this
  | some e2 =>
    refine ⟨e2, ?_, ?_⟩
    · unfold get_experiment
      rw [hfind]
    · have := List.find?_some hfind
      rw [hid] at this
      simpa using this

/-- C10 witness: on a registry holding the tutorial root and a store holding
one of its records, navigating from the record back to the experiment
recovers the root's canonical id. -/
theorem C10_get_experiment_roundtrip_witness :
    ∃ e2 : Experiment,
      get_experiment ⟨[tutorialRoot],
          [⟨"demo_drunkards_walk", 1, .completed, [], "", none, none, false⟩]⟩
        ⟨"demo_drunkards_walk", 1, .completed, [], "", none, none, false⟩ =
        .ok e2 ∧
      e2.getId = tutorialRoot.getId :=
  C10_get_experiment_roundtrip
    ⟨[tutorialRoot],
      [⟨"demo_drunkards_walk", 1, .completed, [], "", none, none, false⟩]⟩
    tutorialRoot
    ⟨"demo_drunkards_walk", 1, .completed, [], "", none, none, false⟩
    (List.mem_cons_self _ _) (by decide)

end Artemis
